import Mathlib

/-!
Verification of the loan-backend ledger reconstruction engine.

The source is an Express/Mongoose server.  Its only non-trivial logic is the
loan enrichment computed inside the `GET /api/loans` handler (event
normalization, day-count interest accrual, payment allocation, top-up
handling, 30-day minimum-interest floor, per-record failure isolation) and
the deposit balance reconstruction inside the `GET /api/deposits` handler.

Modelling conventions of this shallow embedding:
* JS numeric amounts are modelled as rationals (`ℚ`).
* Timestamps are integer milliseconds since the Unix epoch (`ℤ`), the value
  a JS `Date` coerces to in arithmetic.  A date that is missing (or that the
  `Date` parse could not produce) is `none`.
* `Math.floor((b - a) / 86400000)` on integer millisecond timestamps is
  floor division by the positive constant `86400000`, i.e. `ℤ` division.
* JS `Array.prototype.sort` with an ascending comparator is a stable sort;
  it is modelled by `List.insertionSort` with the non-strict key order,
  which is stable (proved below as the filter-preservation theorem).
* The per-record `try`/`catch` cannot be modelled by total functions
  directly; a record carries a `corrupt` flag abstracting "the computation
  for this record throws", and the façade maps a corrupt record to exactly
  the fallback object built in the `catch` branch.
-/

namespace LoanApp

/-- Milliseconds per day, the JS constant `1000 * 60 * 60 * 24`. -/
def msPerDay : ℤ := 86400000

/-- A raw partial-repayment entry as stored on a loan document.
`amount` models `Number(ev.amount || 0)`; a missing or unparseable `date`
is modelled as `none`. -/
structure RawEvent where
  amount : ℚ
  date : Option ℤ
deriving DecidableEq

/-- A normalized repayment event: one that survived the date filter. -/
structure Event where
  amount : ℚ
  date : ℤ
deriving DecidableEq

/-- Ascending-by-date order used by the event sort comparator
`(a, b) => new Date(a.date) - new Date(b.date)`. -/
def dateLE (a b : Event) : Prop := a.date ≤ b.date

instance : DecidableRel dateLE := fun a b => inferInstanceAs (Decidable (a.date ≤ b.date))

instance : IsTotal Event dateLE := ⟨fun a b => le_total a.date b.date⟩

instance : IsTrans Event dateLE := ⟨fun _ _ _ h h' => le_trans h h'⟩

/-- The entries of the raw list that carry a date, in original order:
the result of `.filter(e => e && e.date)`. -/
def validEvents (raw : List RawEvent) : List Event :=
  raw.filterMap fun e => e.date.map fun d => ⟨e.amount, d⟩

/-- Event normalization: keep dated entries, stable-sort ascending by date
(source: `[...loan.partialRepayments].filter(e => e && e.date).sort(...)`). -/
def normalizeEvents (raw : List RawEvent) : List Event :=
  (validEvents raw).insertionSort dateLE

/-- The running ledger state of one simulation:
`principal`, `accrued`, `interestPaid`, `extraInterestPaid`, `lastDate`
from the loan enrichment loop. -/
structure LedgerState where
  principal : ℚ
  accrued : ℚ
  interestPaid : ℚ
  extraInterestPaid : ℚ
  lastDate : ℤ
deriving DecidableEq

/-- Elapsed whole days between two timestamps, clamped at zero
(source: `Math.max(0, Math.floor((evDate - lastDate) / (1000*60*60*24)))`).
`ℤ` division is floor division here since `msPerDay > 0`. -/
def daysBetween (d0 d1 : ℤ) : ℤ := max 0 ((d1 - d0) / msPerDay)

/-- Interest accrual from `s.lastDate` to `d`
(source: `if (days > 0 && principal > 0) accrued += principal * dailyRate * days`).
The same code shape is used for per-event accrual and for the tail segment. -/
def accrueTo (dailyRate : ℚ) (s : LedgerState) (d : ℤ) : LedgerState :=
  let days := daysBetween s.lastDate d
  if 0 < days ∧ 0 < s.principal then
    { s with accrued := s.accrued + s.principal * dailyRate * (days : ℚ) }
  else s

/-- Allocation of one event's amount
(source: the `if (payment < 0) ... else if (payment > 0) ...` block).
A negative amount is a top-up that increases principal; a positive amount
pays interest first, then principal, and any remainder becomes
`extraInterestPaid`; a zero amount does nothing. -/
def allocate (s : LedgerState) (amount : ℚ) : LedgerState :=
  if amount < 0 then
    { s with principal := s.principal + -amount }
  else if 0 < amount then
    let payment := amount
    let interestPortion := min payment s.accrued
    let accrued := s.accrued - interestPortion
    let interestPaid := s.interestPaid + interestPortion
    let payment := payment - interestPortion
    let principalPortion := if 0 < payment then min payment s.principal else 0
    let principal := s.principal - principalPortion
    let payment := payment - principalPortion
    let extraInterestPaid :=
      if 0 < payment then s.extraInterestPaid + payment else s.extraInterestPaid
    { principal := principal, accrued := accrued, interestPaid := interestPaid,
      extraInterestPaid := extraInterestPaid, lastDate := s.lastDate }
  else s

/-- One iteration of the event loop: accrue up to the event date, allocate
the event amount, then `lastDate = evDate`. -/
def applyEvent (dailyRate : ℚ) (s : LedgerState) (ev : Event) : LedgerState :=
  { allocate (accrueTo dailyRate s ev.date) ev.amount with lastDate := ev.date }

/-- The full event walk (`for (const ev of events) { ... }`). -/
def simulate (dailyRate : ℚ) (s : LedgerState) (events : List Event) : LedgerState :=
  events.foldl (applyEvent dailyRate) s

/-- The stored loan fields consumed by the enrichment, plus two
representative stored-only fields (`name`, `amountReceived`) that are
passed through untouched. -/
structure Loan where
  name : String
  amountGiven : ℚ
  date : ℤ
  interestRate : ℚ
  amountReceived : ℚ
  partialRepayments : List RawEvent
deriving DecidableEq

/-- `dailyRate = (loan.interestRate || 0) / 365 / 100`. -/
def dailyRate (loan : Loan) : ℚ := loan.interestRate / 365 / 100

/-- Initial ledger state: principal = amountGiven, everything else 0,
`lastDate = new Date(loan.date)`. -/
def initState (loan : Loan) : LedgerState :=
  { principal := loan.amountGiven, accrued := 0, interestPaid := 0,
    extraInterestPaid := 0, lastDate := loan.date }

/-- `daysSinceStart = Math.max(0, Math.floor((asOf - loan.date) / 86400000))`. -/
def daysSinceStart (loan : Loan) (asOf : ℤ) : ℤ := daysBetween loan.date asOf

/-- The 30-day minimum-interest floor applied once after the event walk
(source: the `if (daysSinceStart < 30) { ... }` block). -/
def minInterestStep (loan : Loan) (asOf : ℤ) (s : LedgerState) : LedgerState :=
  if daysSinceStart loan asOf < 30 then
    let minInterest := loan.amountGiven * dailyRate loan * 30
    let paidSoFar := s.interestPaid + s.extraInterestPaid + s.accrued
    if paidSoFar < minInterest then
      { s with accrued := s.accrued + (minInterest - paidSoFar) }
    else s
  else s

/-- The final ledger state of one enrichment: walk all normalized events,
accrue the tail segment up to `asOf`, then apply the minimum-interest
floor. -/
def enrichState (loan : Loan) (asOf : ℤ) : LedgerState :=
  minInterestStep loan asOf
    (accrueTo (dailyRate loan)
      (simulate (dailyRate loan) (initState loan) (normalizeEvents loan.partialRepayments))
      asOf)

/-- Sum of the positive event amounts
(source: `events.filter(e => Number(e.amount || 0) > 0).reduce((s, e) => s + Number(e.amount), 0)`). -/
def receivedSum (events : List Event) : ℚ :=
  (events.filter fun e => 0 < e.amount).foldl (fun acc e => acc + e.amount) 0

/-- The enriched view returned for one loan: the stored record plus the
computed `amountReceived`, `remainingPrincipal` and `dueAmount`. -/
structure EnrichedLoan where
  stored : Loan
  amountReceived : ℚ
  remainingPrincipal : ℚ
  dueAmount : ℚ
deriving DecidableEq

/-- Normal (non-throwing) enrichment of one loan record. -/
def enrichView (loan : Loan) (asOf : ℤ) : EnrichedLoan :=
  let s := enrichState loan asOf
  { stored := loan,
    amountReceived := receivedSum (normalizeEvents loan.partialRepayments),
    remainingPrincipal := s.principal,
    dueAmount := s.principal + s.accrued }

/-- A stored loan record as seen by the façade.  The `corrupt` flag
abstracts "the enrichment of this record throws" — the typed embedding
cannot itself raise, so the occurrence of an exception is made explicit. -/
structure StoredLoan where
  loan : Loan
  corrupt : Bool
deriving DecidableEq

/-- The `catch` fallback: spread the stored record and default
`remainingPrincipal` and `dueAmount` to the stored `amountGiven`
(the stored `amountReceived` passes through unchanged). -/
def fallbackView (loan : Loan) : EnrichedLoan :=
  { stored := loan, amountReceived := loan.amountReceived,
    remainingPrincipal := loan.amountGiven, dueAmount := loan.amountGiven }

/-- Per-record enrichment with the `try`/`catch` containment. -/
def enrichOne (asOf : ℤ) (rec : StoredLoan) : EnrichedLoan :=
  if rec.corrupt then fallbackView rec.loan else enrichView rec.loan asOf

/-- The façade over a batch: `loans.map(loan => try ... catch ...)`. -/
def enrichBatch (asOf : ℤ) (records : List StoredLoan) : List EnrichedLoan :=
  records.map (enrichOne asOf)

/-- A deposit transaction: `type`, `amount`, optional `dateAD`, optional
numeric `balanceAfter` (a non-number `balanceAfter` is `none`). -/
structure DTxn where
  type : String
  amount : ℚ
  dateAD : Option ℤ
  balanceAfter : Option ℚ
deriving DecidableEq

/-- Effective sort date: `new Date(t.dateAD || 0)` — a missing date falls
back to the epoch. -/
def effDate (t : DTxn) : ℤ := t.dateAD.getD 0

/-- Ascending order on effective transaction dates. -/
def txnLE (a b : DTxn) : Prop := effDate a ≤ effDate b

instance : DecidableRel txnLE := fun a b => inferInstanceAs (Decidable (effDate a ≤ effDate b))

instance : IsTotal DTxn txnLE := ⟨fun a b => le_total (effDate a) (effDate b)⟩

instance : IsTrans DTxn txnLE := ⟨fun _ _ _ h h' => le_trans h h'⟩

/-- The fold recomputing a balance from scratch: Deposit adds, Withdrawal
subtracts, anything else is ignored. -/
def balanceFold (l : List DTxn) : ℚ :=
  l.foldl
    (fun bal t =>
      if t.type = "Deposit" then bal + t.amount
      else if t.type = "Withdrawal" then bal - t.amount
      else bal)
    0

/-- The deposit balance reconstruction of the `GET /api/deposits` handler:
empty list gives 0; otherwise sort by effective date and either trust the
last transaction's recorded `balanceAfter` or recompute by folding. -/
def depositCurrentBalance (txns : List DTxn) : ℚ :=
  if txns.isEmpty then 0
  else
    let sorted := txns.insertionSort txnLE
    match sorted.getLast? with
    | none => 0
    | some last =>
      match last.balanceAfter with
      | some b => b
      | none => balanceFold sorted

/-- A stored deposit record as seen by the façade; `corrupt` abstracts a
thrown exception during reconstruction exactly as for loans. -/
structure StoredDeposit where
  transactions : List DTxn
  corrupt : Bool
deriving DecidableEq

/-- Per-record deposit enrichment: `currentBalance` starts at 0 and keeps
that value when the guarded computation throws. -/
def depositEnrichBalance (rec : StoredDeposit) : ℚ :=
  if rec.corrupt then 0 else depositCurrentBalance rec.transactions

/-- Modelled from the spec: "elapsedDays = floor(eventDate − lastDate) in
whole days, floored at 0" — the floor of the exact rational day count. -/
def specElapsedDays (d0 d1 : ℤ) : ℤ :=
  max 0 ⌊((d1 : ℚ) - (d0 : ℚ)) / (86400000 : ℚ)⌋

/-- Modelled from the spec: "If elapsedDays > 0 and principal > 0:
accrued += principal × dailyRate × elapsedDays". -/
def specAccrue (dailyRate : ℚ) (s : LedgerState) (d : ℤ) : LedgerState :=
  if 0 < specElapsedDays s.lastDate d ∧ 0 < s.principal then
    { s with accrued := s.accrued + s.principal * dailyRate * (specElapsedDays s.lastDate d : ℚ) }
  else s

/-- Modelled from the spec: payment allocation in strict order —
`interestPortion = min(payment, accrued)`, then
`principalPortion = min(remaining payment, principal)`, then the whole
remainder goes to `extraInterestPaid`. -/
def specAllocatePay (s : LedgerState) (payment : ℚ) : LedgerState :=
  let interestPortion := min payment s.accrued
  let rem1 := payment - interestPortion
  let principalPortion := min rem1 s.principal
  let rem2 := rem1 - principalPortion
  { principal := s.principal - principalPortion,
    accrued := s.accrued - interestPortion,
    interestPaid := s.interestPaid + interestPortion,
    extraInterestPaid := s.extraInterestPaid + rem2,
    lastDate := s.lastDate }

/-- Modelled from the spec: the Minimum-Interest Enforcer — if
`daysSinceStart < 30` and `minInterest > paidSoFar`, raise accrued by the
shortfall, else change nothing. -/
def specMinFloor (loan : Loan) (asOf : ℤ) (s : LedgerState) : LedgerState :=
  if specElapsedDays loan.date asOf < 30 then
    let minInterest := loan.amountGiven * dailyRate loan * 30
    let paidSoFar := s.interestPaid + s.extraInterestPaid + s.accrued
    if minInterest > paidSoFar then
      { s with accrued := s.accrued + (minInterest - paidSoFar) }
    else s
  else s

/-- Non-negativity invariant on the monetary components of a ledger state. -/
def GoodState (s : LedgerState) : Prop :=
  0 ≤ s.principal ∧ 0 ≤ s.accrued ∧ 0 ≤ s.interestPaid ∧ 0 ≤ s.extraInterestPaid

/-- Floor division of millisecond timestamps agrees with the rational floor
of the exact day count used by the spec's description. -/
theorem specElapsedDays_eq (d0 d1 : ℤ) : specElapsedDays d0 d1 = daysBetween d0 d1 := by
  unfold specElapsedDays daysBetween msPerDay
  congr 1
  have h1 : ((d1 : ℚ) - (d0 : ℚ)) = ((d1 - d0 : ℤ) : ℚ) := by push_cast; ring
  have h2 : ((86400000 : ℚ)) = ((86400000 : ℕ) : ℚ) := by norm_num
  rw [h1, h2, Rat.floor_intCast_div_natCast]
  norm_num

/-- The source's accrual step coincides with the spec-worded accrual step. -/
theorem accrueTo_eq_specAccrue (r : ℚ) (s : LedgerState) (d : ℤ) :
    accrueTo r s d = specAccrue r s d := by
  simp [accrueTo, specAccrue, specElapsedDays_eq]

theorem accrueTo_principal (r : ℚ) (s : LedgerState) (d : ℤ) :
    (accrueTo r s d).principal = s.principal := by
  simp only [accrueTo]
  split <;> rfl

theorem accrueTo_lastDate (r : ℚ) (s : LedgerState) (d : ℤ) :
    (accrueTo r s d).lastDate = s.lastDate := by
  simp only [accrueTo]
  split <;> rfl

/-- C1: per event the elapsed-day count is the clamped floor of the exact
day difference, interest is added exactly under the `elapsedDays > 0 ∧
principal > 0` guard with the formula `principal × dailyRate × elapsedDays`
(this is `specAccrue`), each loop iteration is that accrual followed by
allocation, and after the loop one tail segment up to `asOf` is accrued by
the very same rule before the minimum-interest step. -/
theorem accrual_follows_spec (r : ℚ) (s : LedgerState) (ev : Event) (loan : Loan) (asOf : ℤ) :
    accrueTo r s ev.date = specAccrue r s ev.date
    ∧ applyEvent r s ev = { allocate (specAccrue r s ev.date) ev.amount with lastDate := ev.date }
    ∧ enrichState loan asOf =
        minInterestStep loan asOf
          (specAccrue (dailyRate loan)
            (simulate (dailyRate loan) (initState loan) (normalizeEvents loan.partialRepayments))
            asOf) := by
  refine ⟨accrueTo_eq_specAccrue r s ev.date, ?_, ?_⟩
  · rw [applyEvent, accrueTo_eq_specAccrue]
  · rw [enrichState, accrueTo_eq_specAccrue]

/-- C3: the minimum-interest enforcement of the source is exactly the
spec-worded floor step, it is applied exactly once after the event walk and
the tail accrual, and it leaves the state unchanged whenever at least 30
days have elapsed since origination. -/
theorem min_interest_floor_spec (loan : Loan) (asOf : ℤ) (s : LedgerState) :
    minInterestStep loan asOf s = specMinFloor loan asOf s
    ∧ enrichState loan asOf =
        specMinFloor loan asOf
          (accrueTo (dailyRate loan)
            (simulate (dailyRate loan) (initState loan) (normalizeEvents loan.partialRepayments))
            asOf)
    ∧ (30 ≤ daysSinceStart loan asOf → minInterestStep loan asOf s = s) := by
  have hstep : ∀ t : LedgerState, minInterestStep loan asOf t = specMinFloor loan asOf t := by
    intro t
    rw [minInterestStep, specMinFloor, specElapsedDays_eq]
    rfl
  refine ⟨hstep s, ?_, ?_⟩
  · rw [enrichState, hstep]
  · intro h
    rw [minInterestStep, if_neg (not_lt.mpr h)]

/-- Witness for the minimum-interest floor theorem at a concrete loan that
is exactly 30 days old: the floor step changes nothing. -/
theorem min_interest_floor_spec_witness :
    minInterestStep ⟨"w", 100, 0, 10, 0, []⟩ 2592000000 ⟨100, 7, 0, 0, 0⟩
      = ⟨100, 7, 0, 0, 0⟩ :=
  (min_interest_floor_spec ⟨"w", 100, 0, 10, 0, []⟩ 2592000000 ⟨100, 7, 0, 0, 0⟩).2.2
    (by decide)

/-- C4: normalization drops exactly the dateless entries, raises no error
(it is a total function), and stable-sorts the remaining entries ascending
by date: the output is sorted, is a permutation of the dated entries, and
for every fixed date the entries carrying that date keep their original
relative order. -/
theorem normalize_sorted_stable (raw : List RawEvent) (d : ℤ) :
    List.Sorted dateLE (normalizeEvents raw)
    ∧ (normalizeEvents raw).Perm (validEvents raw)
    ∧ (normalizeEvents raw).filter (fun e => e.date = d)
        = (validEvents raw).filter (fun e => e.date = d) := by
  refine ⟨List.sorted_insertionSort dateLE (validEvents raw),
    List.perm_insertionSort dateLE (validEvents raw), ?_⟩
  set l := validEvents raw with hl
  set p : Event → Bool := fun e => e.date = d with hp
  have hpair : (l.filter p).Pairwise dateLE := by
    apply List.pairwise_of_forall_mem_list
    intro a ha b hb
    have ha' : a.date = d := by simpa [hp] using (List.mem_filter.mp ha).2
    have hb' : b.date = d := by simpa [hp] using (List.mem_filter.mp hb).2
    simp [dateLE, ha', hb']
  have hsub : (l.filter p).Sublist (List.insertionSort dateLE l) :=
    List.sublist_insertionSort hpair (List.filter_sublist l)
  have hsub2 : (l.filter p).Sublist ((List.insertionSort dateLE l).filter p) := by
    have := List.Sublist.filter p hsub
    simpa [List.filter_filter] using this
  have hperm : ((List.insertionSort dateLE l).filter p).Perm (l.filter p) :=
    (List.perm_insertionSort dateLE l).filter p
  have hlen : (l.filter p).length = ((List.insertionSort dateLE l).filter p).length :=
    (hperm.length_eq).symm
  exact (hsub2.eq_of_length hlen).symm

/-- Source allocation of a positive payment equals the spec's strict-order
allocation, provided principal is non-negative (as it always is in a run,
see the invariant theorem). -/
theorem allocate_pos_eq_spec (s : LedgerState) (p : ℚ)
    (hpr : 0 ≤ s.principal) (hp : 0 < p) :
    allocate s p = specAllocatePay s p := by
  rw [allocate, if_neg (not_lt.mpr hp.le), if_pos hp, specAllocatePay]
  have hip : min p s.accrued ≤ p := min_le_left _ _
  by_cases h : 0 < p - min p s.accrued
  · simp only [if_pos h]
    have hpp : min (p - min p s.accrued) s.principal ≤ p - min p s.accrued :=
      min_le_left _ _
    by_cases h2 : 0 < p - min p s.accrued - min (p - min p s.accrued) s.principal
    · simp only [if_pos h2]
    · have h2' : p - min p s.accrued - min (p - min p s.accrued) s.principal = 0 :=
        le_antisymm (not_lt.mp h2) (by linarith)
      simp only [if_neg h2, h2', add_zero]
      norm_num
  · have h' : p - min p s.accrued = 0 := le_antisymm (not_lt.mp h) (by linarith)
    have hmin : min (p - min p s.accrued) s.principal = 0 := by
      rw [h']
      exact min_eq_left hpr
    simp only [if_neg h, hmin, h', sub_zero, add_zero]
    norm_num
    exact ⟨by rw [min_eq_left hpr]; ring, hpr⟩

/-- C2: a payment event (amount > 0) is allocated in strict order: first
`min(payment, accrued)` moves from accrued to interestPaid, then
`min(remaining, principal)` retires principal, and any remainder is added
to extraInterestPaid, reducing nothing further — i.e. the loop iteration
is accrual followed by `specAllocatePay`. -/
theorem payment_allocation_order (r : ℚ) (s : LedgerState) (ev : Event)
    (hpr : 0 ≤ s.principal) (hp : 0 < ev.amount) :
    applyEvent r s ev
      = { specAllocatePay (accrueTo r s ev.date) ev.amount with lastDate := ev.date } := by
  rw [applyEvent, allocate_pos_eq_spec _ _ (by rw [accrueTo_principal]; exact hpr) hp]

/-- Witness for the allocation-order theorem: a payment of 3 against a
state with principal 5 and accrued 2. -/
theorem payment_allocation_order_witness :
    applyEvent 0 ⟨5, 2, 0, 0, 0⟩ ⟨3, 0⟩
      = { specAllocatePay (accrueTo 0 ⟨5, 2, 0, 0, 0⟩ 0) 3 with lastDate := 0 } :=
  payment_allocation_order 0 ⟨5, 2, 0, 0, 0⟩ ⟨3, 0⟩ (by decide) (by decide)

/-- C5: the façade never aborts a batch — the output has one entry per
record, a record whose enrichment throws is returned as the stored record
with `remainingPrincipal` and `dueAmount` defaulted to the stored
`amountGiven`, and every non-throwing record is enriched normally. -/
theorem facade_batch_isolation (asOf : ℤ) (records : List StoredLoan) (i : ℕ)
    (rec : StoredLoan) (h : records[i]? = some rec) :
    (enrichBatch asOf records).length = records.length
    ∧ (enrichBatch asOf records)[i]? = some (enrichOne asOf rec)
    ∧ (rec.corrupt = true →
        enrichOne asOf rec = fallbackView rec.loan
        ∧ (fallbackView rec.loan).remainingPrincipal = rec.loan.amountGiven
        ∧ (fallbackView rec.loan).dueAmount = rec.loan.amountGiven
        ∧ (fallbackView rec.loan).stored = rec.loan)
    ∧ (rec.corrupt = false → enrichOne asOf rec = enrichView rec.loan asOf) := by
  refine ⟨by simp [enrichBatch], ?_, ?_, ?_⟩
  · rw [enrichBatch, List.getElem?_map, h]
    rfl
  · intro hc
    exact ⟨by rw [enrichOne, if_pos (by rw [hc])], rfl, rfl, rfl⟩
  · intro hc
    rw [enrichOne, if_neg (by rw [hc]; exact Bool.false_ne_true)]

/-- Witness for the façade-isolation theorem on a two-record batch whose
first record is corrupt and whose second is clean. -/
theorem facade_batch_isolation_witness :
    (enrichBatch 0 [⟨⟨"a", 7, 0, 5, 1, []⟩, true⟩, ⟨⟨"b", 9, 0, 5, 0, []⟩, false⟩]).length = 2
    ∧ enrichOne 0 ⟨⟨"a", 7, 0, 5, 1, []⟩, true⟩ = fallbackView ⟨"a", 7, 0, 5, 1, []⟩
    ∧ (fallbackView ⟨"a", 7, 0, 5, 1, []⟩).remainingPrincipal = 7
    ∧ enrichOne 0 ⟨⟨"b", 9, 0, 5, 0, []⟩, false⟩ = enrichView ⟨"b", 9, 0, 5, 0, []⟩ 0 := by
  have h1 := facade_batch_isolation 0
    [⟨⟨"a", 7, 0, 5, 1, []⟩, true⟩, ⟨⟨"b", 9, 0, 5, 0, []⟩, false⟩] 0
    ⟨⟨"a", 7, 0, 5, 1, []⟩, true⟩ (by rfl)
  have h2 := facade_batch_isolation 0
    [⟨⟨"a", 7, 0, 5, 1, []⟩, true⟩, ⟨⟨"b", 9, 0, 5, 0, []⟩, false⟩] 1
    ⟨⟨"b", 9, 0, 5, 0, []⟩, false⟩ (by rfl)
  exact ⟨h1.1, (h1.2.2.1 rfl).1, (h1.2.2.1 rfl).2.1, h2.2.2.2 rfl⟩

/-- C6: on a non-empty transaction list the reconstructor sorts ascending
by effective date (a dateless transaction gets the epoch-zero key), takes
the chronologically last transaction, and returns its recorded
`balanceAfter` when numeric, otherwise the Deposit-plus/Withdrawal-minus
fold over the sorted list starting at 0. -/
theorem deposit_balance_rule (txns : List DTxn) (last : DTxn)
    (h : (txns.insertionSort txnLE).getLast? = some last) :
    List.Sorted txnLE (txns.insertionSort txnLE)
    ∧ (txns.insertionSort txnLE).Perm txns
    ∧ (∀ t : DTxn, t.dateAD = none → effDate t = 0)
    ∧ depositCurrentBalance txns =
        (match last.balanceAfter with
         | some b => b
         | none => balanceFold (txns.insertionSort txnLE)) := by
  refine ⟨List.sorted_insertionSort txnLE txns, List.perm_insertionSort txnLE txns,
    fun t ht => by simp [effDate, ht], ?_⟩
  have hne : txns.isEmpty = false := by
    rcases txns with _ | ⟨t, ts⟩
    · simp [List.insertionSort] at h
    · rfl
  rw [depositCurrentBalance, hne]
  simp only [Bool.false_eq_true, if_false, h]

/-- Witness for the deposit reconstruction theorem: the spec's example —
a deposit of 100 then a withdrawal of 30, no recorded balance, gives 70. -/
theorem deposit_balance_rule_witness :
    depositCurrentBalance
      [⟨"Deposit", 100, some 1, none⟩, ⟨"Withdrawal", 30, some 2, none⟩] = 70 := by
  have h := (deposit_balance_rule
    [⟨"Deposit", 100, some 1, none⟩, ⟨"Withdrawal", 30, some 2, none⟩]
    ⟨"Withdrawal", 30, some 2, none⟩ (by decide)).2.2.2
  rw [h]
  norm_num [balanceFold, List.insertionSort, List.orderedInsert, txnLE, effDate]
  decide

/-- C7: an empty transaction list yields balance 0, and a record whose
reconstruction throws internally also yields balance 0 instead of an
error. -/
theorem deposit_zero_defaults (rec : StoredDeposit) :
    (rec.transactions = [] → depositEnrichBalance rec = 0)
    ∧ (rec.corrupt = true → depositEnrichBalance rec = 0) := by
  constructor
  · intro he
    rw [depositEnrichBalance]
    split
    · rfl
    · rw [depositCurrentBalance, he]
      rfl
  · intro hc
    rw [depositEnrichBalance, if_pos (by rw [hc])]

/-- Witness for the zero-defaults theorem: an intact empty record and a
corrupt record both reconstruct to balance 0. -/
theorem deposit_zero_defaults_witness :
    depositEnrichBalance ⟨[], false⟩ = 0
    ∧ depositEnrichBalance ⟨[⟨"Deposit", 5, some 1, none⟩], true⟩ = 0 :=
  ⟨(deposit_zero_defaults ⟨[], false⟩).1 rfl,
   (deposit_zero_defaults ⟨[⟨"Deposit", 5, some 1, none⟩], true⟩).2 rfl⟩

/-- C8 counterexample: a zero-amount event is not a no-op.  A loan of 100
at 36.5 % (daily rate 1/1000) originated at epoch with payments of 1 on
day 40 and at day 80.5, viewed at day 100, is due 107.9; inserting a
zero-amount event at day 60.7 — strictly between the two event dates —
splits the 40.5-day middle gap into 20- and 19-day counts and the due
amount drops to 107.8. -/
theorem zero_event_not_noop :
    (enrichView
        ⟨"A", 100, 0, 73/2, 0, [⟨1, some 3456000000⟩, ⟨1, some 6955200000⟩]⟩
        8640000000).dueAmount
      ≠ (enrichView
          ⟨"A", 100, 0, 73/2, 0,
            [⟨1, some 3456000000⟩, ⟨0, some 5244480000⟩, ⟨1, some 6955200000⟩]⟩
          8640000000).dueAmount := by
  have hA : (enrichView
      ⟨"A", 100, 0, 73/2, 0, [⟨1, some 3456000000⟩, ⟨1, some 6955200000⟩]⟩
      8640000000).dueAmount = 1079/10 := by
    norm_num [enrichView, enrichState, simulate, normalizeEvents, validEvents,
      List.insertionSort, List.orderedInsert, dateLE, applyEvent, accrueTo, allocate,
      daysBetween, msPerDay, minInterestStep, daysSinceStart, dailyRate, initState,
      receivedSum, min_def, max_def, List.filterMap, List.foldl, List.filter]
  have hB : (enrichView
      ⟨"A", 100, 0, 73/2, 0,
        [⟨1, some 3456000000⟩, ⟨0, some 5244480000⟩, ⟨1, some 6955200000⟩]⟩
      8640000000).dueAmount = 1078/10 := by
    norm_num [enrichView, enrichState, simulate, normalizeEvents, validEvents,
      List.insertionSort, List.orderedInsert, dateLE, applyEvent, accrueTo, allocate,
      daysBetween, msPerDay, minInterestStep, daysSinceStart, dailyRate, initState,
      receivedSum, min_def, max_def, List.filterMap, List.foldl, List.filter]
  rw [hA, hB]
  norm_num

/-- C8 amended: a zero-amount event triggers no allocation, and inserting
one whose date equals the running segment boundary (the `lastDate` reached
after the preceding events — i.e. the adjacent preceding event's date, or
the origination date if inserted first) leaves the whole simulation state
and the `amountReceived` sum unchanged.  At a date strictly inside a
segment the day counts can change, as the counterexample shows. -/
theorem zero_event_noop_at_boundary (r : ℚ) (s : LedgerState) (l1 l2 : List Event)
    (z : Event) (hz : z.amount = 0) (hd : z.date = (simulate r s l1).lastDate) :
    simulate r s (l1 ++ z :: l2) = simulate r s (l1 ++ l2)
    ∧ receivedSum (l1 ++ z :: l2) = receivedSum (l1 ++ l2) := by
  constructor
  · rw [simulate] at hd
    rw [simulate, simulate, List.foldl_append, List.foldl_append, List.foldl_cons]
    congr 1
    set t := List.foldl (applyEvent r) s l1 with ht
    have hdays : daysBetween t.lastDate z.date = 0 := by
      rw [daysBetween, hd, sub_self]
      simp
    have hacc : accrueTo r t z.date = t := by
      simp [accrueTo, hdays]
    have halloc : allocate t z.amount = t := by
      simp [allocate, hz]
    rw [applyEvent, hacc, halloc, hd]
  · rw [receivedSum, receivedSum, List.filter_append, List.filter_append,
      List.filter_cons]
    simp [hz]

/-- Witness for the amended zero-event theorem: a zero event dated at the
current boundary of an empty walk changes nothing. -/
theorem zero_event_noop_at_boundary_witness :
    simulate 0 ⟨1, 0, 0, 0, 5⟩ ([] ++ ⟨0, 5⟩ :: []) = simulate 0 ⟨1, 0, 0, 0, 5⟩ ([] ++ [])
    ∧ receivedSum ([] ++ ⟨0, 5⟩ :: []) = receivedSum ([] ++ []) :=
  zero_event_noop_at_boundary 0 ⟨1, 0, 0, 0, 5⟩ [] [] ⟨0, 5⟩ rfl rfl

/-- C9: the enrichment is a pure function of the consumed stored fields
(`amountGiven`, `date`, `interestRate`, `partialRepayments`) and the
explicit as-of instant — two records agreeing on those fields (even if
other stored fields differ) yield identical derived outputs, so repeated
runs with identical inputs are identical. -/
theorem enrichment_deterministic (a b : Loan) (asOf : ℤ)
    (h1 : a.amountGiven = b.amountGiven) (h2 : a.date = b.date)
    (h3 : a.interestRate = b.interestRate)
    (h4 : a.partialRepayments = b.partialRepayments) :
    (enrichView a asOf).remainingPrincipal = (enrichView b asOf).remainingPrincipal
    ∧ (enrichView a asOf).dueAmount = (enrichView b asOf).dueAmount
    ∧ (enrichView a asOf).amountReceived = (enrichView b asOf).amountReceived := by
  have hs : enrichState a asOf = enrichState b asOf := by
    unfold enrichState minInterestStep daysSinceStart dailyRate initState
    rw [h1, h2, h3, h4]
  simp only [enrichView]
  exact ⟨by rw [hs], by rw [hs], by rw [h4]⟩

/-- Witness for determinism: two loans differing only in a pass-through
field produce the same derived outputs. -/
theorem enrichment_deterministic_witness :
    (enrichView ⟨"x", 10, 0, 5, 0, []⟩ 99).remainingPrincipal
        = (enrichView ⟨"y", 10, 0, 5, 3, []⟩ 99).remainingPrincipal
    ∧ (enrichView ⟨"x", 10, 0, 5, 0, []⟩ 99).dueAmount
        = (enrichView ⟨"y", 10, 0, 5, 3, []⟩ 99).dueAmount
    ∧ (enrichView ⟨"x", 10, 0, 5, 0, []⟩ 99).amountReceived
        = (enrichView ⟨"y", 10, 0, 5, 3, []⟩ 99).amountReceived :=
  enrichment_deterministic ⟨"x", 10, 0, 5, 0, []⟩ ⟨"y", 10, 0, 5, 3, []⟩ 99 rfl rfl rfl rfl

theorem goodState_mk {p a i e : ℚ} {d : ℤ} (hp : 0 ≤ p) (ha : 0 ≤ a)
    (hi : 0 ≤ i) (he : 0 ≤ e) : GoodState ⟨p, a, i, e, d⟩ := ⟨hp, ha, hi, he⟩

theorem allocate_good {s : LedgerState} (a : ℚ) (h : GoodState s) :
    GoodState (allocate s a) := by
  obtain ⟨h1, h2, h3, h4⟩ := h
  rw [allocate]
  by_cases hneg : a < 0
  · rw [if_pos hneg]
    exact goodState_mk (by linarith) h2 h3 h4
  · rw [if_neg hneg]
    by_cases hpos : 0 < a
    · rw [if_pos hpos]
      have hA : 0 ≤ min a s.accrued := le_min hpos.le h2
      have hB : min a s.accrued ≤ a := min_le_left _ _
      have hC : min a s.accrued ≤ s.accrued := min_le_right _ _
      have hE : min (a - min a s.accrued) s.principal ≤ s.principal := min_le_right _ _
      have hF : min (a - min a s.accrued) s.principal ≤ a - min a s.accrued :=
        min_le_left _ _
      simp only [GoodState]
      split_ifs with h5 h6 h7 <;>
        refine ⟨by linarith, by linarith, by linarith, by linarith⟩
    · rw [if_neg hpos]
      exact ⟨h1, h2, h3, h4⟩

theorem accrueTo_good {r : ℚ} {s : LedgerState} (d : ℤ) (hr : 0 ≤ r) (h : GoodState s) :
    GoodState (accrueTo r s d) := by
  obtain ⟨h1, h2, h3, h4⟩ := h
  rw [accrueTo]
  split_ifs with hc
  · obtain ⟨hdays, hp⟩ := hc
    have : (0 : ℚ) ≤ (daysBetween s.lastDate d : ℚ) := by exact_mod_cast hdays.le
    exact ⟨h1, by positivity, h3, h4⟩
  · exact ⟨h1, h2, h3, h4⟩

theorem applyEvent_good {r : ℚ} {s : LedgerState} (ev : Event) (hr : 0 ≤ r)
    (h : GoodState s) : GoodState (applyEvent r s ev) := by
  have := allocate_good ev.amount (accrueTo_good ev.date hr h)
  obtain ⟨h1, h2, h3, h4⟩ := this
  exact ⟨h1, h2, h3, h4⟩

theorem simulate_good {r : ℚ} {s : LedgerState} (events : List Event) (hr : 0 ≤ r)
    (h : GoodState s) : GoodState (simulate r s events) := by
  induction events generalizing s with
  | nil => exact h
  | cons ev rest ih => exact ih (applyEvent_good ev hr h)

theorem minInterestStep_good {loan : Loan} {asOf : ℤ} {s : LedgerState}
    (h : GoodState s) : GoodState (minInterestStep loan asOf s) := by
  obtain ⟨h1, h2, h3, h4⟩ := h
  simp only [minInterestStep]
  split_ifs with hd hm
  · exact goodState_mk h1 (by linarith) h3 h4
  · exact ⟨h1, h2, h3, h4⟩
  · exact ⟨h1, h2, h3, h4⟩

/-- C10: with non-negative `amountGiven` and `interestRate`, every step of
the simulation — the initial state, each event iteration, the tail
accrual, and the minimum-interest floor — preserves non-negativity of
principal, accrued, interestPaid and extraInterestPaid, so the enriched
`remainingPrincipal` and `dueAmount` are never negative. -/
theorem simulation_nonneg (loan : Loan) (asOf : ℤ) (r : ℚ) (s : LedgerState)
    (ev : Event) (events : List Event)
    (hg : 0 ≤ loan.amountGiven) (hrate : 0 ≤ loan.interestRate)
    (hr : 0 ≤ r) (hs : GoodState s) :
    GoodState (initState loan)
    ∧ GoodState (applyEvent r s ev)
    ∧ GoodState (simulate r s events)
    ∧ GoodState (accrueTo r s asOf)
    ∧ GoodState (minInterestStep loan asOf s)
    ∧ GoodState (enrichState loan asOf)
    ∧ 0 ≤ (enrichView loan asOf).remainingPrincipal
    ∧ 0 ≤ (enrichView loan asOf).dueAmount := by
  have hinit : GoodState (initState loan) := ⟨hg, le_refl 0, le_refl 0, le_refl 0⟩
  have hdr : 0 ≤ dailyRate loan := by
    rw [dailyRate]
    positivity
  have hfinal : GoodState (enrichState loan asOf) := by
    rw [enrichState]
    exact minInterestStep_good
      (accrueTo_good asOf hdr (simulate_good _ hdr hinit))
  refine ⟨hinit, applyEvent_good ev hr hs, simulate_good events hr hs,
    accrueTo_good asOf hr hs, minInterestStep_good hs, hfinal, ?_, ?_⟩
  · exact hfinal.1
  · exact add_nonneg hfinal.1 hfinal.2.1

/-- Witness for the non-negativity theorem at a concrete loan, state and
event. -/
theorem simulation_nonneg_witness :
    GoodState (enrichState ⟨"w", 10, 0, 10, 0, [⟨2, some 86400000⟩]⟩ 200000000)
    ∧ 0 ≤ (enrichView ⟨"w", 10, 0, 10, 0, [⟨2, some 86400000⟩]⟩ 200000000).dueAmount :=
  ⟨(simulation_nonneg ⟨"w", 10, 0, 10, 0, [⟨2, some 86400000⟩]⟩ 200000000 0
      ⟨0, 0, 0, 0, 0⟩ ⟨0, 0⟩ [] (by decide) (by decide) (le_refl 0)
      ⟨le_refl 0, le_refl 0, le_refl 0, le_refl 0⟩).2.2.2.2.2.1,
   (simulation_nonneg ⟨"w", 10, 0, 10, 0, [⟨2, some 86400000⟩]⟩ 200000000 0
      ⟨0, 0, 0, 0, 0⟩ ⟨0, 0⟩ [] (by decide) (by decide) (le_refl 0)
      ⟨le_refl 0, le_refl 0, le_refl 0, le_refl 0⟩).2.2.2.2.2.2.2⟩

end LoanApp
